import Mathlib

/-!
Verification development for the `sessionmw` session-middleware package.

The Go source is shallowly embedded: session data (`map[string]interface{}`)
becomes the mutual inductive `Value`/`Fields`; the in-memory store's backing
`map[string]interface{}` becomes a function `String → Option IfaceVal`; the
redis-backed store's byte blobs become token lists produced by a gob-style
structured codec; the middleware (`ServeHTTPC`, `getSession`, `sessionID`,
`Destroy`, `defaultIDGen`) becomes explicit state-passing functions
parameterised by the opaque external capabilities (secure-cookie seal/open,
network dialing, the per-request id draw and clock).
-/

namespace Sessionmw

/- Session values: the subset of Go's `interface{}` that session data
semantically carries per the spec (string, number, bool, nested mapping).
`Fields` is a string-keyed mapping, modelling `map[string]interface{}`. -/
mutual

inductive Value : Type where
  | vStr : String → Value
  | vInt : Int → Value
  | vBool : Bool → Value
  | vMap : Fields → Value

inductive Fields : Type where
  | fnil : Fields
  | fcons : String → Value → Fields → Fields

end

/-- Tokens of the serialized byte stream written by the redis store. The gob
encoding of a `map[string]interface{}` is modelled as a flat token list:
leaf tokens carry scalar payloads, `tOpen`/`tClose` bracket a nested mapping,
`tKey` introduces a field. -/
inductive Tok : Type where
  | tStr : String → Tok
  | tInt : Int → Tok
  | tBool : Bool → Tok
  | tOpen : Tok
  | tClose : Tok
  | tKey : String → Tok

/- Structured encoder for the value/field layer (models `gob.Encode` of a
`map[string]interface{}` value: a preorder walk of the structure). -/
mutual

def encV : Value → List Tok
  | .vStr s => [.tStr s]
  | .vInt i => [.tInt i]
  | .vBool b => [.tBool b]
  | .vMap f => Tok.tOpen :: encF f

def encF : Fields → List Tok
  | .fnil => [Tok.tClose]
  | .fcons k v f => Tok.tKey k :: (encV v ++ encF f)

end

/- Fuelled decoder for the token stream (models `gob.Decode`); returns the
decoded value and the unconsumed remainder of the stream. -/
mutual

def decV : Nat → List Tok → Option (Value × List Tok)
  | 0, _ => none
  | _ + 1, [] => none
  | _ + 1, Tok.tStr s :: r => some (.vStr s, r)
  | _ + 1, Tok.tInt i :: r => some (.vInt i, r)
  | _ + 1, Tok.tBool b :: r => some (.vBool b, r)
  | fuel + 1, Tok.tOpen :: r =>
    match decF fuel r with
    | some (f, r') => some (.vMap f, r')
    | none => none
  | _ + 1, Tok.tClose :: _ => none
  | _ + 1, Tok.tKey _ :: _ => none

def decF : Nat → List Tok → Option (Fields × List Tok)
  | 0, _ => none
  | _ + 1, [] => none
  | _ + 1, Tok.tClose :: r => some (.fnil, r)
  | fuel + 1, Tok.tKey k :: r =>
    match decV fuel r with
    | some (v, r') =>
      match decF fuel r' with
      | some (f, r'') => some (.fcons k v f, r'')
      | none => none
    | none => none
  | _ + 1, Tok.tStr _ :: _ => none
  | _ + 1, Tok.tInt _ :: _ => none
  | _ + 1, Tok.tBool _ :: _ => none
  | _ + 1, Tok.tOpen :: _ => none

end

/-- The serialized blob the redis store writes for a session mapping. -/
def gobEncode (f : Fields) : List Tok := encF f

/-- Deserialization of a stored blob back into a session mapping. -/
def gobDecode (l : List Tok) : Option Fields :=
  match decF l.length l with
  | some (f, []) => some f
  | _ => none


/-- Error values returned by store implementations: the shared
`ErrSessionNotFound`, the redis store's `Error{Op, Cmd, Err}` wrapper, and a
`*net.OpError` surfacing from the connection pool. -/
inductive StoreErr : Type where
  | errSessionNotFound : StoreErr
  | redisCmdErr : String → String → String → StoreErr
  | netOpErr : String → StoreErr

/-- A value of Go dynamic type `interface{}` as stored in the MemStore backing
map: either a session mapping, or a value of some other dynamic type. -/
inductive IfaceVal : Type where
  | vMap : Fields → IfaceVal
  | vOther : Nat → IfaceVal

/-- Backing map of the in-memory store (source field `data : map[string]interface{}`). -/
def MemState : Type := String → Option IfaceVal

/-- `NewMemStore` creates the in-memory store with an empty backing map. -/
def NewMemStore : MemState := fun _ => none

/-- Outcome of `MemStore.Get`: the two return paths of the source, plus the
runtime panic Go's unchecked type assertion `sess.(map[string]interface{})`
raises when the stored value is not a session mapping. -/
inductive GetOutcome : Type where
  | ok : Fields → GetOutcome
  | errSessionNotFound : GetOutcome
  | castPanic : GetOutcome

/-- `Get` retrieves the session for the provided id from the in-memory store. -/
def MemStore.Get (ms : MemState) (id : String) : GetOutcome :=
  match ms id with
  | some (.vMap sess) => .ok sess
  | some (.vOther _) => .castPanic
  | none => .errSessionNotFound

/-- `Save` stores the session for the provided id, overwriting any previous
record; it always returns a nil error. -/
def MemStore.Save (ms : MemState) (id : String) (sess : Fields) :
    Option StoreErr × MemState :=
  (none, fun k => if k = id then some (.vMap sess) else ms k)

/-- `Destroy` deletes the record for the provided id; it always returns a nil
error. -/
def MemStore.Destroy (ms : MemState) (id : String) : Option StoreErr × MemState :=
  (none, fun k => if k = id then none else ms k)

/-- Mutating store operations, for reasoning about reachable MemStore states. -/
inductive MemOp : Type where
  | save : String → Fields → MemOp
  | destroy : String → MemOp

def MemStore.step (ms : MemState) : MemOp → MemState
  | .save id d => (MemStore.Save ms id d).2
  | .destroy id => (MemStore.Destroy ms id).2

/-- State of the in-memory store after a sequence of mutating operations
starting from `NewMemStore`. -/
def MemStore.run (ops : List MemOp) : MemState :=
  ops.foldl MemStore.step NewMemStore

/-- Specification-level answer for a key: the data of the last `save` for `id`
not followed by a `destroy` of `id`. -/
def lastSaved (ops : List MemOp) (id : String) : Option Fields :=
  ops.foldl
    (fun acc op =>
      match op with
      | .save i d => if i = id then some d else acc
      | .destroy i => if i = id then none else acc)
    none

/-- Invariant of the in-memory store: every stored `interface{}` value is a
session mapping (it was put there by `Save`). -/
def MemInv (ms : MemState) : Prop :=
  ∀ id v, ms id = some v → ∃ d, v = IfaceVal.vMap d

/-- An in-memory store state satisfying the `Save`-origin invariant. -/
def MemInvState : Type := { ms : MemState // MemInv ms }

/-- The capability set of the `Store` interface: exactly three operations —
read a session by id, upsert a session by id, delete a session by id — each
able to report a store error. -/
structure StoreOps (σ : Type) where
  get : σ → String → Except StoreErr Fields
  save : σ → String → Fields → Option StoreErr × σ
  destroy : σ → String → Option StoreErr × σ

/-- MemStore `Get` through the interface: on invariant states the type
assertion cannot panic, so the result is plain data-or-error. -/
def MemStoreI.Get (ms : MemInvState) (id : String) : Except StoreErr Fields :=
  match h : ms.1 id with
  | some (.vMap sess) => .ok sess
  | some (.vOther n) =>
    False.elim (by
      rcases ms.2 id _ h with ⟨d, hd⟩
      exact IfaceVal.noConfusion hd)
  | none => .error .errSessionNotFound

/-- MemStore `Save` through the interface, carrying invariant preservation. -/
def MemStoreI.Save (ms : MemInvState) (id : String) (sess : Fields) :
    Option StoreErr × MemInvState :=
  ((MemStore.Save ms.1 id sess).1,
    ⟨(MemStore.Save ms.1 id sess).2, by
      intro k v hk
      by_cases hki : k = id
      · simp [MemStore.Save, hki] at hk
        exact ⟨sess, hk.symm⟩
      · simp [MemStore.Save, hki] at hk
        exact ms.2 k v hk⟩)

/-- MemStore `Destroy` through the interface, carrying invariant preservation. -/
def MemStoreI.Destroy (ms : MemInvState) (id : String) :
    Option StoreErr × MemInvState :=
  ((MemStore.Destroy ms.1 id).1,
    ⟨(MemStore.Destroy ms.1 id).2, by
      intro k v hk
      by_cases hki : k = id
      · simp [MemStore.Destroy, hki] at hk
      · simp [MemStore.Destroy, hki] at hk
        exact ms.2 k v hk⟩)

/-- The in-memory store packaged as a `Store` implementation. -/
def memStoreOps : StoreOps MemInvState :=
  ⟨MemStoreI.Get, MemStoreI.Save, MemStoreI.Destroy⟩

/-- Configuration of the redis store (source struct `RedisStore`): the key
namespace prepended to ids (source field KeyPrefix), and the host its pooled
connection dials. -/
structure RedisStoreCfg where
  keyPref : String
  host : String

/-- Default key namespace in redis (source constant DefaultKeyPrefix). -/
def defaultKeyPref : String := "SESS_"

/-- State of the remote key-value service together with the health of the
pooled connection to it: `connOk = false` models a dead transport, in which
every command surfaces the underlying net error, as the repository's
connection-pool tests observe. -/
structure RedisState where
  connOk : Bool
  kv : String → Option (List Tok)

/-- `Get` issues a GET for the namespaced key: a nil reply maps to
`ErrSessionNotFound`, undecodable bytes map to the decode error, otherwise the
stored session mapping is decoded and returned. -/
def RedisStore.Get (rs : RedisStoreCfg) (st : RedisState) (id : String) :
    Except StoreErr Fields :=
  if st.connOk = false then .error (.netOpErr rs.host)
  else
    match st.kv (rs.keyPref ++ id) with
    | none => .error .errSessionNotFound
    | some buf =>
      match gobDecode buf with
      | some sess => .ok sess
      | none => .error (.redisCmdErr "decode" "GET" "gob")

/-- `Save` serializes the session mapping and issues a SET of the namespaced
key, overwriting any previous value. -/
def RedisStore.Save (rs : RedisStoreCfg) (st : RedisState) (id : String)
    (sess : Fields) : Option StoreErr × RedisState :=
  if st.connOk = false then (some (.netOpErr rs.host), st)
  else
    (none,
      { st with
        kv := fun k =>
          if k = rs.keyPref ++ id then some (gobEncode sess) else st.kv k })

/-- `Destroy` issues a DEL of the namespaced key; deleting an absent key is
not an error. -/
def RedisStore.Destroy (rs : RedisStoreCfg) (st : RedisState) (id : String) :
    Option StoreErr × RedisState :=
  if st.connOk = false then (some (.netOpErr rs.host), st)
  else
    (none,
      { st with kv := fun k => if k = rs.keyPref ++ id then none else st.kv k })

/-- The redis store packaged as a `Store` implementation. -/
def redisStoreOps (rs : RedisStoreCfg) : StoreOps RedisState :=
  ⟨RedisStore.Get rs, fun st id sess => RedisStore.Save rs st id sess,
    fun st id => RedisStore.Destroy rs st id⟩

/-- Mutating redis-store operations, for reasoning about op sequences. -/
inductive RedisOp : Type where
  | save : String → Fields → RedisOp
  | destroy : String → RedisOp

def RedisStore.step (rs : RedisStoreCfg) (st : RedisState) : RedisOp → RedisState
  | .save id d => (RedisStore.Save rs st id d).2
  | .destroy id => (RedisStore.Destroy rs st id).2

/-- Bit mask from the source id generator: keeps the nanosecond timestamp with
its low 6 bits discarded (`0xffffffffffffffc0`). -/
def idMask : Nat := 0xffffffffffffffc0

/-- Combined integer of the id generator: the masked `uint64` nanosecond
timestamp `t` OR-ed with the draw `r` of `rand.Intn(1024)`. -/
def idNum (t r : Nat) : Nat := (t &&& idMask) ||| r

/-- Digit alphabet of the base-62 encoding used by `baseconv.Encode62`. -/
def base62Digits : List Char :=
  "0123456789abcdefghijklmnopqrstuvwxyzABCDEFGHIJKLMNOPQRSTUVWXYZ".data

def digitChar62 (d : Nat) : Char := base62Digits.getD d '?'

/-- Base-62 rendering of a natural number: the composition of
`fmt.Sprintf("%d", n)` with `baseconv.Encode62` (decimal string in, base-62
string out). -/
def encode62 (n : Nat) : String :=
  if n = 0 then "0" else String.mk ((Nat.digits 62 n).map digitChar62).reverse

/-- The default session id generation func, as a function of the two ambient
effects it samples: the clock (`t`, nanoseconds as `uint64`) and the PRNG
(`r = rand.Intn(1024)`). -/
def defaultIDGen (t r : Nat) : String := encode62 (idNum t r)

/-- An issued (or expiring) session cookie, with the attribute fields the
source sets on `http.Cookie`. -/
structure Cookie where
  name : String
  value : String
  path : String
  domain : String
  expires : Int
  maxAge : Int
  secure : Bool
  httpOnly : Bool

/-- The secure-cookie sealing capability (`securecookie.New(...)`): `enc`
seals a small string map into an opaque token, `dec` verifies and opens it.
Treated as opaque per the spec. -/
structure SecureCookie where
  enc : String → List (String × String) → Except Unit String
  dec : String → String → Except Unit (List (String × String))

/-- Lookup in a small string map (`v["id"]`). -/
def lookupKV : List (String × String) → String → Option String
  | [], _ => none
  | (k, v) :: rest, key => if k = key then some v else lookupKV rest key

/-- An inbound request, reduced to what the middleware inspects: the session
cookie value, if the request carries one. -/
structure Request where
  cookie : Option String

/-- The per-request context values the middleware installs and the package
accessors read back: session id, store, and cookie name. -/
structure SessCtxt (σ : Type) where
  sessID : String
  store : StoreOps σ
  cookieName : String

/-- Package-level `Destroy(ctxt, res...)`: when a response writer is provided
it attaches an expired cookie (`Expires: time.Now()`, `Value: "-"`,
`MaxAge: -1`), then destroys the session in the underlying store. -/
def Destroy (ctxt : SessCtxt σ) (st : σ) (now : Int) (res : Option Unit) :
    Option Cookie × (Option StoreErr × σ) :=
  (match res with
   | some _ =>
     some { name := ctxt.cookieName, value := "-", path := "", domain := "",
            expires := now, maxAge := -1, secure := false, httpOnly := false }
   | none => none,
   ctxt.store.destroy st ctxt.sessID)

/-- The session middleware (source struct `sessMiddleware`), plus the value the
id generation func returns for this request (`freshId`). -/
structure SessMiddleware (σ : Type) where
  sc : SecureCookie
  st : StoreOps σ
  freshId : String
  name : String
  path : String
  domain : String
  expires : Int
  maxAge : Int
  secure : Bool
  httpOnly : Bool

/-- `sessionID` extracts the session id from the request cookie: absent cookie,
failed decode, or missing "id" key all yield a fresh id and `false`. -/
def SessMiddleware.sessionID (s : SessMiddleware σ) (req : Request) :
    String × Bool :=
  match req.cookie with
  | none => (s.freshId, false)
  | some cv =>
    match s.sc.dec s.name cv with
    | .error _ => (s.freshId, false)
    | .ok v =>
      match lookupKV v "id" with
      | none => (s.freshId, false)
      | some sessID => (sessID, true)

/-- `encodeCookie` seals `{"id": id}` into the cookie token. -/
def SessMiddleware.encodeCookie (s : SessMiddleware σ) (id : String) :
    Except Unit String :=
  s.sc.enc s.name [("id", id)]

/-- `getSession` retrieves the session for the request: a fresh empty session
(with refresh set) when the cookie is unusable, and — mirroring the source's
`if err != nil` — also whenever `Store.Get` returns any error; otherwise the
stored data with refresh unset. -/
def SessMiddleware.getSession (s : SessMiddleware σ) (stState : σ)
    (req : Request) : String × Fields × Bool :=
  let r := s.sessionID req
  if r.2 = false then (r.1, Fields.fnil, true)
  else
    match s.st.get stState r.1 with
    | .error _ => (r.1, Fields.fnil, true)
    | .ok d => (r.1, d, false)

/-- Go map assignment `sess.data[key] = val` on the session mapping. -/
def Fields.setKV : Fields → String → Value → Fields
  | .fnil, k, v => .fcons k v .fnil
  | .fcons k1 v1 rest, k, v =>
    if k1 = k then .fcons k v rest else .fcons k1 v1 (Fields.setKV rest k v)

/-- Go map deletion `delete(sess.data, key)` on the session mapping. -/
def Fields.delKV : Fields → String → Fields
  | .fnil, _ => .fnil
  | .fcons k1 v1 rest, k =>
    if k1 = k then Fields.delKV rest k else .fcons k1 v1 (Fields.delKV rest k)

/-- What a request handler can do to the ambient session machinery: `Set`,
`Delete`, and `Destroy` (optionally passing the response writer). -/
inductive HCall : Type where
  | hset : String → Value → HCall
  | hdel : String → HCall
  | hdestroy : Bool → HCall

/-- Mutable state visible while the handler runs: the shared session mapping,
the store state, and the cookies attached to the response so far. -/
structure HState (σ : Type) where
  sess : Fields
  store : σ
  cookies : List Cookie

def runHCall (s : SessMiddleware σ) (sessID : String) (now : Int)
    (h : HState σ) : HCall → HState σ
  | .hset k v => { h with sess := h.sess.setKV k v }
  | .hdel k => { h with sess := h.sess.delKV k }
  | .hdestroy withRes =>
    let out := Destroy ⟨sessID, s.st, s.name⟩ h.store now
      (if withRes then some () else none)
    { sess := h.sess, store := out.2.2, cookies := h.cookies ++ out.1.toList }

/-- Run the handler body (`s.h.ServeHTTPC(ctxt, res, req)`) as its sequence of
calls into the session accessors. -/
def runHandler (s : SessMiddleware σ) (sessID : String) (now : Int)
    (h : HState σ) (calls : List HCall) : HState σ :=
  calls.foldl (runHCall s sessID now) h

inductive ServeStatus : Type where
  | ok : ServeStatus
  | internalError : ServeStatus

/-- Observable outcome of one request through the middleware. -/
structure ServeResult (σ : Type) where
  status : ServeStatus
  store : σ
  cookies : List Cookie
  sessID : String
  sessFinal : Fields

/-- Tail of `ServeHTTPC` after the cookie-refresh branch: run the handler,
then unconditionally `s.st.Save(sessID, sess.data)` (the returned error is
discarded, exactly as in the source). -/
def serveFinish (s : SessMiddleware σ) (stState : σ) (sessID : String)
    (sess : Fields) (cookies0 : List Cookie) (handler : List HCall)
    (now : Int) : ServeResult σ :=
  let hfinal := runHandler s sessID now ⟨sess, stState, cookies0⟩ handler
  let saved := s.st.save hfinal.store sessID hfinal.sess
  { status := .ok, store := saved.2, cookies := hfinal.cookies,
    sessID := sessID, sessFinal := hfinal.sess }

/-- `ServeHTTPC`: load the session, issue the refreshed cookie when needed
(an encoding failure is the only internal-error response), run the handler,
and save the session. -/
def SessMiddleware.ServeHTTPC (s : SessMiddleware σ) (stState : σ)
    (req : Request) (handler : List HCall) (now : Int) : ServeResult σ :=
  if (s.getSession stState req).2.2 then
    match s.encodeCookie (s.getSession stState req).1 with
    | .error _ =>
      { status := .internalError, store := stState, cookies := [],
        sessID := (s.getSession stState req).1,
        sessFinal := (s.getSession stState req).2.1 }
    | .ok v =>
      serveFinish s stState (s.getSession stState req).1
        (s.getSession stState req).2.1
        [{ name := s.name, value := v, path := s.path, domain := s.domain,
           expires := s.expires, maxAge := s.maxAge, secure := s.secure,
           httpOnly := s.httpOnly }] handler now
  else
    serveFinish s stState (s.getSession stState req).1
      (s.getSession stState req).2.1 [] handler now

/-- Parsed connection URL, reduced to the fields the constructor consults. -/
structure GoURL where
  scheme : String
  host : String

/-- Split a character list at its first colon: the characters before it, and
the remainder beginning with the colon (or no remainder when none occurs). -/
def takeUntilColon : List Char → List Char × List Char
  | [] => ([], [])
  | c :: cs =>
    if c = ':' then ([], c :: cs)
    else
      let p := takeUntilColon cs
      (c :: p.1, p.2)

/-- Minimal model of `net/url.Parse`, restricted to the behaviors the store
constructor relies on: a URL whose scheme segment before the first colon is
empty ("missing protocol scheme", e.g. ":,/") is malformed; otherwise the
segment before "://" is the scheme and the authority up to the next "/" is
the host; a URL without a colon parses with no scheme at all. -/
def urlParse (s : String) : Except String GoURL :=
  match takeUntilColon s.data with
  | (before, ':' :: '/' :: '/' :: rest) =>
    if before = [] then .error "missing protocol scheme"
    else .ok ⟨String.mk before, String.mk (rest.takeWhile (fun c => c != '/'))⟩
  | (before, ':' :: _) =>
    if before = [] then .error "missing protocol scheme"
    else .ok ⟨String.mk before, ""⟩
  | (_, _) => .ok ⟨"", s⟩

/-- Errors `redisstore.New` can return: a `*url.Error` from parsing,
`ErrInvalidScheme`, or the `*net.OpError` from dialing the pool. -/
inductive NewErr : Type where
  | urlError : String → NewErr
  | invalidScheme : NewErr
  | netOpError : String → NewErr

/-- Model of `redisstore.New`: default the key namespace, parse the URL, check
the scheme is "redis", then create the connection pool.
`pool.NewPool("tcp", u.Host, 1)` dials its connection eagerly, modelled by the
ambient `dial` capability — the repository's own TestNew observes the
`*net.OpError` being returned by `New` itself. -/
def RedisStore.New (dial : String → Bool) (redisURL : String)
    (keyPref : Option String) : Except NewErr RedisStoreCfg :=
  let keyPrefVal := keyPref.getD defaultKeyPref
  match urlParse redisURL with
  | .error e => .error (.urlError e)
  | .ok u =>
    if u.scheme ≠ "redis" then .error .invalidScheme
    else if dial u.host then .ok ⟨keyPrefVal, u.host⟩
    else .error (.netOpError u.host)


/-- The record of `Store` operations as a bare triple of its three functions. -/
def StoreOps.asTriple (ops : StoreOps σ) :
    (σ → String → Except StoreErr Fields) ×
    (σ → String → Fields → Option StoreErr × σ) ×
    (σ → String → Option StoreErr × σ) :=
  (ops.get, ops.save, ops.destroy)

/-- A sealing capability that always seals successfully, for concrete runs. -/
def scOk : SecureCookie :=
  ⟨fun _ _ => .ok "tok", fun _ _ => .error ()⟩

/-- The invariant-carrying state of a newly constructed in-memory store. -/
def memInit : MemInvState := ⟨NewMemStore, fun _ _ h => Option.noConfusion h⟩

/-- Concrete middleware over the in-memory store, for concrete runs. -/
def mwMem : SessMiddleware MemInvState :=
  ⟨scOk, memStoreOps, "f1", "SESSID", "", "", 0, 0, false, false⟩

/-- A handler body that stores a value and then destroys its session. -/
def destroyingHandler : List HCall :=
  [HCall.hset "name" (Value.vStr "foo"), HCall.hdestroy true]

/-- A store whose `Get` always reports a backend (transport) error. -/
def backendErrStoreOps : StoreOps Unit :=
  ⟨fun _ _ => .error (.netOpErr "conn"),
    fun st _ _ => (some (.netOpErr "conn"), st),
    fun st _ => (some (.netOpErr "conn"), st)⟩

/-- A sealing capability that opens any token as the map `{"id": "abc"}`. -/
def scAbc : SecureCookie :=
  ⟨fun _ _ => .ok "tok", fun _ _ => .ok [("id", "abc")]⟩

/-- Concrete middleware whose store's `Get` always fails with a backend error. -/
def mwBackendErr : SessMiddleware Unit :=
  ⟨scAbc, backendErrStoreOps, "fresh", "SESSID", "", "", 0, 0, false, false⟩

mutual

theorem decV_encV (v : Value) : ∀ (fuel : Nat) (rest : List Tok),
    (encV v).length ≤ fuel → decV fuel (encV v ++ rest) = some (v, rest) := by
  cases v with
  | vStr s =>
    intro fuel rest h
    match fuel with
    | 0 => simp [encV] at h
    | fuel + 1 => simp [encV, decV]
  | vInt i =>
    intro fuel rest h
    match fuel with
    | 0 => simp [encV] at h
    | fuel + 1 => simp [encV, decV]
  | vBool b =>
    intro fuel rest h
    match fuel with
    | 0 => simp [encV] at h
    | fuel + 1 => simp [encV, decV]
  | vMap f =>
    intro fuel rest h
    match fuel with
    | 0 => simp [encV] at h
    | fuel + 1 =>
      have hf : (encF f).length ≤ fuel := by
        simp [encV] at h; omega
      simp only [encV, List.cons_append, decV, decF_encF f fuel rest hf]

theorem decF_encF (f : Fields) : ∀ (fuel : Nat) (rest : List Tok),
    (encF f).length ≤ fuel → decF fuel (encF f ++ rest) = some (f, rest) := by
  cases f with
  | fnil =>
    intro fuel rest h
    match fuel with
    | 0 => simp [encF] at h
    | fuel + 1 => simp [encF, decF]
  | fcons k v f =>
    intro fuel rest h
    match fuel with
    | 0 => simp [encF] at h
    | fuel + 1 =>
      have hv : (encV v).length ≤ fuel := by
        simp [encF] at h; omega
      have hf : (encF f).length ≤ fuel := by
        simp [encF] at h; omega
      simp only [encF, List.cons_append, decF, List.append_eq]
      rw [List.append_assoc]
      simp only [decV_encV v fuel (encF f ++ rest) hv, decF_encF f fuel rest hf]

end

/-- Round-trip of the serialization layer: decoding an encoded session mapping
recovers it exactly. -/
theorem gobDecode_gobEncode (f : Fields) : gobDecode (gobEncode f) = some f := by
  have h := decF_encF f (encF f).length [] (Nat.le_refl _)
  simp only [List.append_nil] at h
  simp [gobDecode, gobEncode, h]

theorem foldl_step_lookup (ops : List MemOp) (ms : MemState) (id : String) :
    (ops.foldl MemStore.step ms) id =
      ops.foldl
        (fun acc op =>
          match op with
          | MemOp.save i d => if i = id then some (IfaceVal.vMap d) else acc
          | MemOp.destroy i => if i = id then none else acc)
        (ms id) := by
  induction ops generalizing ms with
  | nil => rfl
  | cons op rest ih =>
    cases op with
    | save i d =>
      simp only [List.foldl_cons, MemStore.step]
      rw [ih]
      congr 1
      show (MemStore.Save ms i d).2 id = _
      by_cases h : id = i
      · subst h
        simp [MemStore.Save]
      · have h2 : ¬ i = id := fun hh => h hh.symm
        simp [MemStore.Save, h, h2]
    | destroy i =>
      simp only [List.foldl_cons, MemStore.step]
      rw [ih]
      congr 1
      show (MemStore.Destroy ms i).2 id = _
      by_cases h : id = i
      · subst h
        simp [MemStore.Destroy]
      · have h2 : ¬ i = id := fun hh => h hh.symm
        simp [MemStore.Destroy, h, h2]

theorem run_lookup (ops : List MemOp) (id : String) :
    MemStore.run ops id = (lastSaved ops id).map IfaceVal.vMap := by
  unfold MemStore.run lastSaved
  rw [foldl_step_lookup]
  have key : ∀ (l : List MemOp) (acc : Option Fields),
      l.foldl
        (fun a op =>
          match op with
          | MemOp.save i d => if i = id then some (IfaceVal.vMap d) else a
          | MemOp.destroy i => if i = id then none else a)
        (acc.map IfaceVal.vMap) =
      (l.foldl
        (fun a op =>
          match op with
          | MemOp.save i d => if i = id then some d else a
          | MemOp.destroy i => if i = id then none else a)
        acc).map IfaceVal.vMap := by
    intro l
    induction l with
    | nil => intro acc; rfl
    | cons op rest ih =>
      intro acc
      cases op with
      | save i d =>
        simp only [List.foldl_cons]
        by_cases h : i = id
        · rw [if_pos h, if_pos h]
          exact ih (some d)
        · rw [if_neg h, if_neg h]
          exact ih acc
      | destroy i =>
        simp only [List.foldl_cons]
        by_cases h : i = id
        · rw [if_pos h, if_pos h]
          exact ih none
        · rw [if_neg h, if_neg h]
          exact ih acc
  exact key ops none

/-- C7: for the in-memory store, `Save` and `Destroy` never return an error
for any id and data, and `Get` returns `ErrSessionNotFound` exactly when the
id is absent from the backing map at the moment of the read — otherwise (on
states reached by running operations from `NewMemStore`) the data of the last
`Save` for that id, with no error. -/
theorem memstore_no_backend_errors :
    (∀ (ms : MemState) (id : String) (sess : Fields),
      (MemStore.Save ms id sess).1 = none) ∧
    (∀ (ms : MemState) (id : String), (MemStore.Destroy ms id).1 = none) ∧
    (∀ (ms : MemState) (id : String),
      (MemStore.Get ms id = GetOutcome.errSessionNotFound ↔ ms id = none)) ∧
    (∀ (ops : List MemOp) (id : String),
      MemStore.Get (MemStore.run ops) id =
        match lastSaved ops id with
        | some d => GetOutcome.ok d
        | none => GetOutcome.errSessionNotFound) := by
  refine ⟨fun _ _ _ => rfl, fun _ _ => rfl, ?_, ?_⟩
  · intro ms id
    cases h : ms id with
    | none => simp [MemStore.Get, h]
    | some v =>
      cases v with
      | vMap sess => simp [MemStore.Get, h]
      | vOther n => simp [MemStore.Get, h]
  · intro ops id
    have hrun := run_lookup ops id
    cases hl : lastSaved ops id with
    | none =>
      rw [hl] at hrun
      simp [MemStore.Get, hrun]
    | some d =>
      rw [hl] at hrun
      simp [MemStore.Get, hrun]

/-- C10: on every in-memory store state reachable through `NewMemStore`,
`Save`, and `Destroy`, every value held in the backing map is a session
mapping, so the type assertion performed by `Get` on a found value can never
fail: the cast-panic branch is unreachable. -/
theorem memstore_cast_unreachable :
    (∀ ops : List MemOp, MemInv (MemStore.run ops)) ∧
    (∀ (ops : List MemOp) (id : String),
      MemStore.Get (MemStore.run ops) id ≠ GetOutcome.castPanic) := by
  constructor
  · intro ops id v h
    rw [run_lookup] at h
    cases hl : lastSaved ops id with
    | none => rw [hl] at h; exact Option.noConfusion h
    | some d =>
      rw [hl] at h
      simp only [Option.map, Option.some.injEq] at h
      exact ⟨d, h.symm⟩
  · intro ops id
    have hrun := run_lookup ops id
    cases hl : lastSaved ops id with
    | none =>
      rw [hl] at hrun
      simp [MemStore.Get, hrun]
    | some d =>
      rw [hl] at hrun
      simp [MemStore.Get, hrun]

theorem MemStoreI.Get_of_some (ms : MemInvState) (id : String) (sess : Fields)
    (h : ms.1 id = some (IfaceVal.vMap sess)) :
    MemStoreI.Get ms id = Except.ok sess := by
  unfold MemStoreI.Get
  split
  next s2 heq =>
    rw [h] at heq
    simp only [Option.some.injEq, IfaceVal.vMap.injEq] at heq
    rw [heq]
  next n heq =>
    rw [h] at heq
    simp at heq
  next heq =>
    rw [h] at heq
    simp at heq

theorem MemStoreI.Get_of_none (ms : MemInvState) (id : String)
    (h : ms.1 id = none) :
    MemStoreI.Get ms id = Except.error StoreErr.errSessionNotFound := by
  unfold MemStoreI.Get
  split
  next s2 heq =>
    rw [h] at heq
    simp at heq
  next n heq =>
    rw [h] at heq
    simp at heq
  next heq => rfl

/-- C3: the `Store` interface is exactly the three operations
get-by-id, save-by-id, destroy-by-id (a `StoreOps` record is in bijection
with the bare triple of those functions), and both the in-memory store and
the redis store provide all three operations. -/
theorem store_interface_three_ops :
    (∀ σ : Type, Function.Bijective (fun ops : StoreOps σ => ops.asTriple)) ∧
    StoreOps.asTriple memStoreOps =
      (MemStoreI.Get, MemStoreI.Save, MemStoreI.Destroy) ∧
    (∀ rs : RedisStoreCfg,
      StoreOps.asTriple (redisStoreOps rs) =
        (RedisStore.Get rs, fun st id sess => RedisStore.Save rs st id sess,
          fun st id => RedisStore.Destroy rs st id)) := by
  refine ⟨fun σ => ⟨?_, ?_⟩, rfl, fun _ => rfl⟩
  · intro a b h
    cases a
    cases b
    simp only [StoreOps.asTriple, Prod.mk.injEq] at h
    obtain ⟨h1, h2, h3⟩ := h
    simp [h1, h2, h3]
  · intro t
    exact ⟨⟨t.1, t.2.1, t.2.2⟩, rfl⟩

/-- C4: round-trip law — for every id and every representable session mapping
(nested mappings included), `Save(id, d)` returns no error and a subsequent
`Get(id)` returns exactly `d`, for both the in-memory store and the redis
store (the latter on a healthy connection). -/
theorem save_get_roundtrip :
    (∀ (ms : MemInvState) (id : String) (d : Fields),
      (MemStoreI.Save ms id d).1 = none ∧
      MemStoreI.Get (MemStoreI.Save ms id d).2 id = Except.ok d) ∧
    (∀ (rs : RedisStoreCfg) (st : RedisState) (id : String) (d : Fields),
      st.connOk = true →
        (RedisStore.Save rs st id d).1 = none ∧
        RedisStore.Get rs (RedisStore.Save rs st id d).2 id = Except.ok d) := by
  constructor
  · intro ms id d
    refine ⟨rfl, ?_⟩
    apply MemStoreI.Get_of_some
    show (MemStore.Save ms.1 id d).2 id = _
    simp [MemStore.Save]
  · intro rs st id d hc
    constructor
    · simp [RedisStore.Save, hc]
    · simp [RedisStore.Save, RedisStore.Get, hc, gobDecode_gobEncode]

theorem string_append_cancel_left {p a b : String} (h : p ++ a = p ++ b) :
    a = b := by
  apply String.ext
  have hd := congrArg String.data h
  simp only [String.data_append] at hd
  exact List.append_cancel_left hd

theorem foldl_no_save_none (ops : List MemOp) (id : String)
    (h : ∀ d, MemOp.save id d ∉ ops) :
    ops.foldl
      (fun acc op =>
        match op with
        | MemOp.save i d => if i = id then some (IfaceVal.vMap d) else acc
        | MemOp.destroy i => if i = id then none else acc)
      none = none := by
  induction ops with
  | nil => rfl
  | cons op rest ih =>
    have hrest : ∀ d, MemOp.save id d ∉ rest := by
      intro d hmem
      exact h d (List.mem_cons_of_mem _ hmem)
    cases op with
    | save i d =>
      have hne : i ≠ id := by
        intro hi
        exact h d (by rw [hi]; exact List.mem_cons_self _ _)
      simp only [List.foldl_cons, if_neg hne]
      exact ih hrest
    | destroy i =>
      simp only [List.foldl_cons]
      by_cases hi : i = id
      · rw [if_pos hi]
        exact ih hrest
      · rw [if_neg hi]
        exact ih hrest

theorem redis_step_connOk (rs : RedisStoreCfg) (st : RedisState) (op : RedisOp) :
    (RedisStore.step rs st op).connOk = st.connOk := by
  cases op with
  | save i d =>
    simp only [RedisStore.step, RedisStore.Save]
    split <;> rfl
  | destroy i =>
    simp only [RedisStore.step, RedisStore.Destroy]
    split <;> rfl

theorem redis_foldl_connOk (rs : RedisStoreCfg) (ops : List RedisOp)
    (st : RedisState) :
    (ops.foldl (RedisStore.step rs) st).connOk = st.connOk := by
  induction ops generalizing st with
  | nil => rfl
  | cons op rest ih =>
    simp only [List.foldl_cons]
    rw [ih, redis_step_connOk]

theorem redis_foldl_no_save_kv (rs : RedisStoreCfg) (id : String)
    (ops : List RedisOp) (st : RedisState)
    (h : ∀ d, RedisOp.save id d ∉ ops)
    (hkv : st.kv (rs.keyPref ++ id) = none) :
    (ops.foldl (RedisStore.step rs) st).kv (rs.keyPref ++ id) = none := by
  induction ops generalizing st with
  | nil => exact hkv
  | cons op rest ih =>
    have hrest : ∀ d, RedisOp.save id d ∉ rest := by
      intro d hmem
      exact h d (List.mem_cons_of_mem _ hmem)
    cases op with
    | save i d =>
      have hne : i ≠ id := by
        intro hi
        exact h d (by rw [hi]; exact List.mem_cons_self _ _)
      simp only [List.foldl_cons]
      refine ih _ hrest ?_
      simp only [RedisStore.step, RedisStore.Save]
      split
      · exact hkv
      · simp only []
        have hkeyne : rs.keyPref ++ id ≠ rs.keyPref ++ i := by
          intro hk
          exact hne (string_append_cancel_left hk).symm
        rw [if_neg hkeyne]
        exact hkv
    | destroy i =>
      simp only [List.foldl_cons]
      refine ih _ hrest ?_
      simp only [RedisStore.step, RedisStore.Destroy]
      split
      · exact hkv
      · simp only []
        by_cases hk : rs.keyPref ++ id = rs.keyPref ++ i
        · rw [if_pos hk]
        · rw [if_neg hk]
          exact hkv

/-- C8: `Destroy` is idempotent for both stores — a second `Destroy(id)` in a
row never errors — and a `Get(id)` issued after a `Destroy(id)`, with no
intervening `Save` for that id (arbitrary operations on other ids allowed),
returns the not-found error. The redis store is taken on a healthy
connection. -/
theorem destroy_idempotent :
    (∀ (ms : MemState) (id : String),
      (MemStore.Destroy (MemStore.Destroy ms id).2 id).1 = none) ∧
    (∀ (ms : MemState) (id : String) (ops : List MemOp),
      (∀ d : Fields, MemOp.save id d ∉ ops) →
      MemStore.Get (ops.foldl MemStore.step (MemStore.Destroy ms id).2) id =
        GetOutcome.errSessionNotFound) ∧
    (∀ (rs : RedisStoreCfg) (st : RedisState) (id : String),
      st.connOk = true →
      (RedisStore.Destroy rs (RedisStore.Destroy rs st id).2 id).1 = none) ∧
    (∀ (rs : RedisStoreCfg) (st : RedisState) (id : String)
      (ops : List RedisOp),
      st.connOk = true →
      (∀ d : Fields, RedisOp.save id d ∉ ops) →
      RedisStore.Get rs
        (ops.foldl (RedisStore.step rs) (RedisStore.Destroy rs st id).2) id =
        Except.error StoreErr.errSessionNotFound) := by
  refine ⟨fun _ _ => rfl, ?_, ?_, ?_⟩
  · intro ms id ops hns
    have hl : (ops.foldl MemStore.step (MemStore.Destroy ms id).2) id = none := by
      rw [foldl_step_lookup]
      have h0 : (MemStore.Destroy ms id).2 id = none := by
        simp [MemStore.Destroy]
      rw [h0]
      exact foldl_no_save_none ops id hns
    simp [MemStore.Get, hl]
  · intro rs st id hc
    have h1 : (RedisStore.Destroy rs st id).2.connOk = true := by
      simp [RedisStore.Destroy, hc]
    have h2 : ∀ st' : RedisState, st'.connOk = true →
        (RedisStore.Destroy rs st' id).1 = none := by
      intro st' hc'
      simp [RedisStore.Destroy, hc']
    exact h2 _ h1
  · intro rs st id ops hc hns
    have hd : (RedisStore.Destroy rs st id).2.connOk = true := by
      simp [RedisStore.Destroy, hc]
    have hkv0 : (RedisStore.Destroy rs st id).2.kv (rs.keyPref ++ id) = none := by
      simp [RedisStore.Destroy, hc]
    have hconn := redis_foldl_connOk rs ops (RedisStore.Destroy rs st id).2
    rw [hd] at hconn
    have hkv := redis_foldl_no_save_kv rs id ops _ hns hkv0
    simp [RedisStore.Get, hconn, hkv]

/-- Witness for C4 at a concrete nested mapping on the redis store. -/
theorem save_get_roundtrip_witness :
    (RedisStore.Save ⟨"SESS_", "h"⟩ ⟨true, fun _ => none⟩ "a"
      (Fields.fcons "k"
        (Value.vMap (Fields.fcons "x" (Value.vStr "y") Fields.fnil))
        Fields.fnil)).1 = none ∧
    RedisStore.Get ⟨"SESS_", "h"⟩
      (RedisStore.Save ⟨"SESS_", "h"⟩ ⟨true, fun _ => none⟩ "a"
        (Fields.fcons "k"
          (Value.vMap (Fields.fcons "x" (Value.vStr "y") Fields.fnil))
          Fields.fnil)).2 "a" =
      Except.ok
        (Fields.fcons "k"
          (Value.vMap (Fields.fcons "x" (Value.vStr "y") Fields.fnil))
          Fields.fnil) :=
  save_get_roundtrip.2 ⟨"SESS_", "h"⟩ ⟨true, fun _ => none⟩ "a" _ rfl

/-- Witness for C8 at concrete inputs for both stores. -/
theorem destroy_idempotent_witness :
    MemStore.Get (([MemOp.destroy "b"]).foldl MemStore.step
        (MemStore.Destroy NewMemStore "a").2) "a" =
      GetOutcome.errSessionNotFound ∧
    (RedisStore.Destroy ⟨"SESS_", "h"⟩
        (RedisStore.Destroy ⟨"SESS_", "h"⟩ ⟨true, fun _ => none⟩ "a").2 "a").1 =
      none ∧
    RedisStore.Get ⟨"SESS_", "h"⟩
        (([RedisOp.destroy "b"]).foldl (RedisStore.step ⟨"SESS_", "h"⟩)
          (RedisStore.Destroy ⟨"SESS_", "h"⟩ ⟨true, fun _ => none⟩ "a").2) "a" =
      Except.error StoreErr.errSessionNotFound :=
  ⟨destroy_idempotent.2.1 NewMemStore "a" [MemOp.destroy "b"]
      (by intro d; simp),
   destroy_idempotent.2.2.1 ⟨"SESS_", "h"⟩ ⟨true, fun _ => none⟩ "a" rfl,
   destroy_idempotent.2.2.2 ⟨"SESS_", "h"⟩ ⟨true, fun _ => none⟩ "a"
      [RedisOp.destroy "b"] rfl (by intro d; simp)⟩

theorem le_or_left (x y : Nat) : x ≤ x ||| y :=
  Nat.le_of_testBit fun i h => by simp [Nat.testBit_or, h]

theorem or_lt_add_two_pow (m r k : Nat) (hr : r < 2 ^ k) :
    m ||| r < m + 2 ^ k := by
  have hs : m % 2 ^ k < 2 ^ k := Nat.mod_lt _ (Nat.two_pow_pos k)
  have hsor : m % 2 ^ k ||| r < 2 ^ k := Nat.or_lt_two_pow hs hr
  have hdecomp : 2 ^ k * (m / 2 ^ k) + m % 2 ^ k = m := Nat.div_add_mod m (2 ^ k)
  have e1 : m ||| r = 2 ^ k * (m / 2 ^ k) + (m % 2 ^ k ||| r) := by
    calc m ||| r = (2 ^ k * (m / 2 ^ k) + m % 2 ^ k) ||| r := by rw [hdecomp]
      _ = (2 ^ k * (m / 2 ^ k) ||| m % 2 ^ k) ||| r := by
            rw [Nat.mul_add_lt_is_or hs]
      _ = 2 ^ k * (m / 2 ^ k) ||| (m % 2 ^ k ||| r) := Nat.or_assoc _ _ _
      _ = 2 ^ k * (m / 2 ^ k) + (m % 2 ^ k ||| r) :=
            (Nat.mul_add_lt_is_or hsor _).symm
  omega

theorem idNum_lt_of_gap (t1 r1 t2 r2 : Nat) (hr1 : r1 < 1024)
    (hgap : (t1 &&& idMask) + 1024 ≤ (t2 &&& idMask)) :
    idNum t1 r1 < idNum t2 r2 := by
  have h1024 : (2 : Nat) ^ 10 = 1024 := by norm_num
  have h1 : (t1 &&& idMask) ||| r1 < (t1 &&& idMask) + 1024 := by
    have := or_lt_add_two_pow (t1 &&& idMask) r1 10 (by rw [h1024]; exact hr1)
    rw [h1024] at this
    exact this
  have h2 : (t2 &&& idMask) ≤ (t2 &&& idMask) ||| r2 := le_or_left _ _
  simp only [idNum]
  omega

theorem digitChar62_inj_fin :
    ∀ a b : Fin 62, digitChar62 a.val = digitChar62 b.val → a = b := by decide

theorem digitChar62_inj {a b : Nat} (ha : a < 62) (hb : b < 62)
    (h : digitChar62 a = digitChar62 b) : a = b := by
  have := digitChar62_inj_fin ⟨a, ha⟩ ⟨b, hb⟩ h
  exact congrArg Fin.val this

theorem map_digitChar62_inj : ∀ (l1 l2 : List Nat),
    (∀ d ∈ l1, d < 62) → (∀ d ∈ l2, d < 62) →
    l1.map digitChar62 = l2.map digitChar62 → l1 = l2 := by
  intro l1
  induction l1 with
  | nil =>
    intro l2 _ _ h
    cases l2 with
    | nil => rfl
    | cons b bs => simp at h
  | cons a as ih =>
    intro l2 h1 h2 h
    cases l2 with
    | nil => simp at h
    | cons b bs =>
      simp only [List.map_cons, List.cons.injEq] at h
      have ha : a < 62 := h1 a (List.mem_cons_self _ _)
      have hb : b < 62 := h2 b (List.mem_cons_self _ _)
      have hab := digitChar62_inj ha hb h.1
      have htail := ih bs (fun d hd => h1 d (List.mem_cons_of_mem _ hd))
        (fun d hd => h2 d (List.mem_cons_of_mem _ hd)) h.2
      rw [hab, htail]

theorem encode62_ne_zero_str {n : Nat} (hn : n ≠ 0) :
    String.mk ((Nat.digits 62 n).map digitChar62).reverse ≠ "0" := by
  intro h
  have hd : ((Nat.digits 62 n).map digitChar62).reverse = ['0'] :=
    congrArg String.data h
  have hm : (Nat.digits 62 n).map digitChar62 = ['0'] := by
    have := congrArg List.reverse hd
    simpa using this
  cases hds : Nat.digits 62 n with
  | nil => rw [hds] at hm; simp at hm
  | cons d ds =>
    rw [hds] at hm
    simp only [List.map_cons, List.cons.injEq] at hm
    have hmem : d ∈ Nat.digits 62 n := by
      rw [hds]; exact List.mem_cons_self d ds
    have hdd : d < 62 := Nat.digits_lt_base (by norm_num) hmem
    have hd0 : d = 0 := digitChar62_inj hdd (by norm_num) hm.1
    have hdnil : ds = [] := by
      have := hm.2
      simpa using this
    have hds' : Nat.digits 62 n = [0] := by
      rw [hds, hd0, hdnil]
    have hofd := Nat.ofDigits_digits 62 n
    rw [hds'] at hofd
    simp [Nat.ofDigits] at hofd
    exact hn hofd.symm

theorem encode62_injective : Function.Injective encode62 := by
  intro a b h
  unfold encode62 at h
  by_cases ha : a = 0 <;> by_cases hb : b = 0
  · rw [ha, hb]
  · exfalso
    rw [if_pos ha, if_neg hb] at h
    exact encode62_ne_zero_str hb h.symm
  · exfalso
    rw [if_neg ha, if_pos hb] at h
    exact encode62_ne_zero_str ha h
  · rw [if_neg ha, if_neg hb] at h
    have hd : ((Nat.digits 62 a).map digitChar62).reverse =
        ((Nat.digits 62 b).map digitChar62).reverse := congrArg String.data h
    have hmap : (Nat.digits 62 a).map digitChar62 =
        (Nat.digits 62 b).map digitChar62 := by
      have := congrArg List.reverse hd
      simpa using this
    have hdig : Nat.digits 62 a = Nat.digits 62 b :=
      map_digitChar62_inj _ _
        (fun d hd2 => Nat.digits_lt_base (by norm_num) hd2)
        (fun d hd2 => Nat.digits_lt_base (by norm_num) hd2) hmap
    exact Nat.digits_inj_iff.mp hdig

/-- C6 counterexample: the mask discards only the low 6 bits (64 ns
granularity) while the random draw ranges over [0, 1024), so it is not
confined to the discarded bits: two calls spaced 128 ns apart — beyond the
coarsening granularity — with valid draws produce the SAME identifier,
refuting both the confinement and the distinct/increasing guarantee. -/
theorem idgen_collision_counterexample :
    (64 : Nat) < 128 - 0 ∧ (128 : Nat) < 1024 ∧ ¬ ((128 : Nat) < 64) ∧
    idNum 0 128 = idNum 128 0 ∧ defaultIDGen 0 128 = defaultIDGen 128 0 := by
  refine ⟨by norm_num, by norm_num, by norm_num, by decide, ?_⟩
  have h : idNum 0 128 = idNum 128 0 := by decide
  simp only [defaultIDGen, h]

/-- C6 (amended): the generator combines the timestamp with its low 6 bits
discarded and a random draw in [0, 1024) that overlaps 4 bits of the kept
timestamp, base-62 encodes the result; a sequence of calls whose consecutive
coarsened timestamps are at least 1024 apart (the bound of the random
component, not merely the 64 ns coarsening granularity) yields strictly
increasing combined values and pairwise distinct identifiers. -/
theorem idgen_increasing_when_spaced (n : Nat) (t r : Fin n → Nat)
    (hr : ∀ i, r i < 1024)
    (hgap : ∀ i j : Fin n, (i : Nat) + 1 = (j : Nat) →
      (t i &&& idMask) + 1024 ≤ (t j &&& idMask)) :
    (∀ i j : Fin n, (i : Nat) < (j : Nat) →
      idNum (t i) (r i) < idNum (t j) (r j)) ∧
    (∀ i j : Fin n, (i : Nat) ≠ (j : Nat) →
      defaultIDGen (t i) (r i) ≠ defaultIDGen (t j) (r j)) := by
  have mono : ∀ (jv : Nat) (i j : Fin n), (j : Nat) = jv →
      (i : Nat) < (j : Nat) →
      (t i &&& idMask) + 1024 ≤ (t j &&& idMask) := by
    intro jv
    induction jv using Nat.strong_induction_on with
    | _ jv ih =>
      intro i j hjv hij
      rcases Nat.eq_or_lt_of_le (Nat.succ_le_of_lt hij) with heq | hlt
      · exact hgap i j (by omega)
      · have hjm : (j : Nat) - 1 < n := by omega
        have ha := ih ((j : Nat) - 1) (by omega) i ⟨(j : Nat) - 1, hjm⟩
          rfl (by simp; omega)
        have hb := hgap ⟨(j : Nat) - 1, hjm⟩ j (by simp; omega)
        omega
  have hlt : ∀ i j : Fin n, (i : Nat) < (j : Nat) →
      idNum (t i) (r i) < idNum (t j) (r j) := by
    intro i j hij
    exact idNum_lt_of_gap _ _ _ _ (hr i) (mono (j : Nat) i j rfl hij)
  refine ⟨hlt, ?_⟩
  intro i j hij hEq
  have hnum := encode62_injective hEq
  rcases Nat.lt_or_ge (i : Nat) (j : Nat) with h | h
  · have := hlt i j h
    omega
  · have hji : (j : Nat) < (i : Nat) := by omega
    have := hlt j i hji
    omega

/-- Witness for the amended C6 at a concrete two-call sequence. -/
theorem idgen_increasing_when_spaced_witness :
    idNum 0 5 < idNum 2048 5 ∧ defaultIDGen 0 5 ≠ defaultIDGen 2048 5 := by
  have h := idgen_increasing_when_spaced 2
    (fun i => if (i : Nat) = 0 then 0 else 2048) (fun _ => 5)
    (by decide) (by decide)
  exact ⟨h.1 0 1 (by decide), h.2 0 1 (by decide)⟩

/-- C9: package-level `Destroy` with a writable response attaches a cookie
whose MaxAge is negative and whose value is the one-character invalid
sentinel "-", and destroys the session's id in the underlying store. -/
theorem destroy_cookie_sentinel (σ : Type) (ctxt : SessCtxt σ) (st : σ)
    (now : Int) :
    ∃ c : Cookie,
      (Destroy ctxt st now (some ())).1 = some c ∧
      c.maxAge = -1 ∧ c.maxAge ≤ 0 ∧ c.value = "-" ∧ c.value.length = 1 ∧
      c.name = ctxt.cookieName ∧ c.expires = now ∧
      (Destroy ctxt st now (some ())).2 = ctxt.store.destroy st ctxt.sessID :=
  ⟨_, rfl, rfl, by norm_num, rfl, rfl, rfl, rfl, rfl⟩

/-- C1 counterexample: a concrete request whose handler explicitly destroys
the session does NOT end with the backing store empty for that id — the
middleware's unconditional end-of-request `Save` re-creates the record. -/
theorem destroyed_session_resaved :
    HCall.hdestroy true ∈ destroyingHandler ∧
    ((mwMem.ServeHTTPC memInit ⟨none⟩ destroyingHandler 0).store).1 "f1" =
      some (IfaceVal.vMap
        (Fields.fcons "name" (Value.vStr "foo") Fields.fnil)) := by
  refine ⟨by simp [destroyingHandler], ?_⟩
  rfl

theorem serveFinish_store_mem (s : SessMiddleware MemInvState)
    (hst : s.st = memStoreOps) (stState : MemInvState) (sessID : String)
    (sess : Fields) (cookies0 : List Cookie) (handler : List HCall)
    (now : Int) :
    ((serveFinish s stState sessID sess cookies0 handler now).store).1
        ((serveFinish s stState sessID sess cookies0 handler now).sessID) =
      some (IfaceVal.vMap
        ((serveFinish s stState sessID sess cookies0 handler now).sessFinal)) := by
  simp only [serveFinish, hst, memStoreOps, MemStoreI.Save, MemStore.Save]
  simp

/-- C1 (amended): every request the middleware completes normally ends with
the `Save` flush executed: the backing record for the request's session id
equals the handler-final session data — including requests whose handler
destroyed the session, whose record is thereby re-created at request end. -/
theorem flush_always_occurs (st : MemInvState) (req : Request)
    (handler : List HCall) (now : Int) (s : SessMiddleware MemInvState)
    (hst : s.st = memStoreOps)
    (hok : (s.ServeHTTPC st req handler now).status = ServeStatus.ok) :
    ((s.ServeHTTPC st req handler now).store).1
        ((s.ServeHTTPC st req handler now).sessID) =
      some (IfaceVal.vMap ((s.ServeHTTPC st req handler now).sessFinal)) := by
  unfold SessMiddleware.ServeHTTPC at hok ⊢
  cases hb : (s.getSession st req).2.2 with
  | false =>
    rw [if_neg Bool.false_ne_true]
    exact serveFinish_store_mem s hst st _ _ _ handler now
  | true =>
    rw [hb] at hok
    rw [if_pos rfl] at hok ⊢
    cases henc : s.encodeCookie (s.getSession st req).1 with
    | error e =>
      rw [henc] at hok
      simp at hok
    | ok v =>
      exact serveFinish_store_mem s hst st _ _ _ handler now

/-- Witness for the amended C1 at the concrete destroying request. -/
theorem flush_always_occurs_witness :
    ((mwMem.ServeHTTPC memInit ⟨none⟩ destroyingHandler 0).store).1
        ((mwMem.ServeHTTPC memInit ⟨none⟩ destroyingHandler 0).sessID) =
      some (IfaceVal.vMap
        ((mwMem.ServeHTTPC memInit ⟨none⟩ destroyingHandler 0).sessFinal)) :=
  flush_always_occurs memInit ⟨none⟩ destroyingHandler 0 mwMem rfl rfl

/-- C2 counterexample: a request presenting a valid cookie whose id makes
`Store.Get` fail with a backend (transport) error is not answered with an
internal error: `getSession` fabricates a fresh empty session and the request
completes normally. -/
theorem backend_error_not_propagated :
    backendErrStoreOps.get () "abc" =
      Except.error (StoreErr.netOpErr "conn") ∧
    mwBackendErr.sessionID ⟨some "tok"⟩ = ("abc", true) ∧
    mwBackendErr.getSession () ⟨some "tok"⟩ = ("abc", Fields.fnil, true) ∧
    (mwBackendErr.ServeHTTPC () ⟨some "tok"⟩ [] 0).status = ServeStatus.ok :=
  ⟨rfl, rfl, rfl, rfl⟩

/-- C2 (amended): every error from `Store.Get` during session load — NotFound
and backend/decode errors alike — is absorbed into the fresh-session fallback
(empty data, refresh set, presented id reused); no internal failure is raised
for a `Get` error. -/
theorem any_get_error_absorbed (σ : Type) (s : SessMiddleware σ) (stState : σ)
    (req : Request) (sessID : String) (e : StoreErr)
    (hsid : s.sessionID req = (sessID, true))
    (hget : s.st.get stState sessID = Except.error e) :
    s.getSession stState req = (sessID, Fields.fnil, true) := by
  unfold SessMiddleware.getSession
  rw [hsid]
  simp [hget]

/-- Witness for the amended C2 at the concrete backend-erroring store. -/
theorem any_get_error_absorbed_witness :
    mwBackendErr.getSession () ⟨some "tok"⟩ = ("abc", Fields.fnil, true) :=
  any_get_error_absorbed Unit mwBackendErr () ⟨some "tok"⟩ "abc"
    (StoreErr.netOpErr "conn") rfl rfl

/-- C5 counterexample: a well-formed redis URL pointing at nothing listening
makes construction itself fail with the transport error — the pooled
connection is created eagerly, not lazily on the first store operation (the
repository's own TestNew asserts this `*net.OpError` from `New`). -/
theorem new_eager_dial_counterexample :
    urlParse "redis://localhost:0" = Except.ok ⟨"redis", "localhost:0"⟩ ∧
    RedisStore.New (fun _ => false) "redis://localhost:0" none =
      Except.error (NewErr.netOpError "localhost:0") :=
  ⟨rfl, rfl⟩

/-- C5 (amended): a malformed URL and a wrong-scheme URL are rejected with two
distinct diagnosable errors before any network I/O (the result is independent
of the dialing environment); but the pooled connection is created eagerly at
construction: with the right scheme, a dead host fails `New` itself with the
transport error, and a live host makes `New` succeed. -/
theorem new_url_validation (dial dial2 : String → Bool) (kp : Option String) :
    RedisStore.New dial ":,/" kp =
      Except.error (NewErr.urlError "missing protocol scheme") ∧
    RedisStore.New dial ":,/" kp = RedisStore.New dial2 ":,/" kp ∧
    RedisStore.New dial "http://google.com/" kp =
      Except.error NewErr.invalidScheme ∧
    RedisStore.New dial "http://google.com/" kp =
      RedisStore.New dial2 "http://google.com/" kp ∧
    (∀ m : String, NewErr.urlError m ≠ NewErr.invalidScheme) ∧
    (∀ (url : String) (u : GoURL), urlParse url = Except.ok u →
      u.scheme = "redis" → dial u.host = false →
      RedisStore.New dial url kp = Except.error (NewErr.netOpError u.host)) ∧
    (∀ (url : String) (u : GoURL), urlParse url = Except.ok u →
      u.scheme = "redis" → dial u.host = true →
      RedisStore.New dial url kp =
        Except.ok ⟨kp.getD defaultKeyPref, u.host⟩) := by
  refine ⟨rfl, rfl, rfl, rfl, fun m h => NewErr.noConfusion h, ?_, ?_⟩
  · intro url u hp hs hd
    unfold RedisStore.New
    rw [hp]
    simp [hs, hd]
  · intro url u hp hs hd
    unfold RedisStore.New
    rw [hp]
    simp [hs, hd]

/-- Witness for the amended C5 at concrete dial environments. -/
theorem new_url_validation_witness :
    RedisStore.New (fun _ => false) "redis://h" none =
      Except.error (NewErr.netOpError "h") :=
  (new_url_validation (fun _ => false) (fun _ => true) none).2.2.2.2.2.1
    "redis://h" ⟨"redis", "h"⟩ rfl rfl rfl

/-- Witness for C7 at a concrete store state and operation sequence. -/
theorem memstore_no_backend_errors_witness :
    (MemStore.Get NewMemStore "a" = GetOutcome.errSessionNotFound ↔
      NewMemStore "a" = none) ∧
    MemStore.Get (MemStore.run [MemOp.save "a" Fields.fnil]) "a" =
      GetOutcome.ok Fields.fnil :=
  ⟨memstore_no_backend_errors.2.2.1 NewMemStore "a",
   memstore_no_backend_errors.2.2.2 [MemOp.save "a" Fields.fnil] "a"⟩

/-- Witness for C10 at a concrete operation sequence. -/
theorem memstore_cast_unreachable_witness :
    MemStore.Get (MemStore.run [MemOp.save "a" Fields.fnil]) "a" ≠
      GetOutcome.castPanic :=
  memstore_cast_unreachable.2 [MemOp.save "a" Fields.fnil] "a"

end Sessionmw
